import Mathlib

/-!
Verification of the MRR mouse recorder/replayer (src/main.go) against its
natural-language specification.

The Go program is shallowly embedded: machine integers are modelled as
Nat/Int with explicit wrap-around where it matters, hook callbacks become
pure state-transition functions, the Win32 injection primitives become an
explicit action trace, and the JSON codec used through encoding/json is
modelled character by character (Marshal's exact indented output, and a
recursive-descent reading of Unmarshal specialised to []MouseRecord).
Time is modelled in milliseconds: a Go time.Time becomes an Int timestamp
and time.Duration.Milliseconds() of a difference becomes Int subtraction.
-/

namespace MRR

/-- Message and flag constants from main.go (the const blocks). -/
def WM_LBUTTONDOWN : Nat := 0x0201

/-- WM_LBUTTONUP from main.go. -/
def WM_LBUTTONUP : Nat := 0x0202

/-- WM_RBUTTONDOWN from main.go. -/
def WM_RBUTTONDOWN : Nat := 0x0204

/-- WM_RBUTTONUP from main.go. -/
def WM_RBUTTONUP : Nat := 0x0205

/-- WM_MOUSEWHEEL from main.go. -/
def WM_MOUSEWHEEL : Nat := 0x020A

/-- WM_XBUTTONDOWN from main.go. -/
def WM_XBUTTONDOWN : Nat := 0x020B

/-- WM_XBUTTONUP from main.go. -/
def WM_XBUTTONUP : Nat := 0x020C

/-- MOUSEEVENTF_XDOWN from main.go. -/
def MOUSEEVENTF_XDOWN : Nat := 0x0080

/-- MOUSEEVENTF_XUP from main.go. -/
def MOUSEEVENTF_XUP : Nat := 0x0100

/-- XBUTTON1 from main.go. -/
def XBUTTON1 : Nat := 0x0001

/-- XBUTTON2 from main.go. -/
def XBUTTON2 : Nat := 0x0002

/-- The record type persisted to disk: struct MouseRecord of main.go.
DeltaMS is a Go int64 and X, Y, Data are Go int32; they are modelled as
unbounded Int with range side conditions stated where they matter. -/
structure MouseRecord where
  DeltaMS : Int
  X : Int
  Y : Int
  Event : String
  Data : Int
deriving DecidableEq, Repr

/-- Go conversion uint32 -> int32 (two's complement reinterpretation),
as in `int32(mouseData)` at main.go:276. -/
def toInt32 (n : Nat) : Int :=
  let m := n % 4294967296
  if m < 2147483648 then (m : Int) else (m : Int) - 4294967296

/-- The high word extraction of mouseHookProc (main.go:232):
`(msStruct.MouseData >> 16) & 0xFFFF` on a uint32. -/
def highWord (mouseData : Nat) : Nat :=
  (mouseData >>> 16) &&& 0xFFFF

/-- The signed 16-bit reading of the combined field's high word. This is the
spec's description of the wheel payload ("wheel delta is sign-extended"),
kept as a separate definition to compare against what the code computes. -/
def specSignedHighWord (mouseData : Nat) : Int :=
  let m := (mouseData >>> 16) % 65536
  if m < 32768 then (m : Int) else (m : Int) - 65536

/-- The event-string classification switch of mouseHookProc
(main.go:235-260), applied to wparam and the already-extracted high word. -/
def eventName (wparam : Nat) (mouseData : Nat) : String :=
  if wparam = WM_LBUTTONDOWN then "LeftButtonDown"
  else if wparam = WM_LBUTTONUP then "LeftButtonUp"
  else if wparam = WM_RBUTTONDOWN then "RightButtonDown"
  else if wparam = WM_RBUTTONUP then "RightButtonUp"
  else if wparam = WM_MOUSEWHEEL then "MouseWheel"
  else if wparam = WM_XBUTTONDOWN then
    (if mouseData = XBUTTON1 then "Mouse4Down"
     else if mouseData = XBUTTON2 then "Mouse5Down"
     else "")
  else if wparam = WM_XBUTTONUP then
    (if mouseData = XBUTTON1 then "Mouse4Up"
     else if mouseData = XBUTTON2 then "Mouse5Up"
     else "")
  else "MouseMove"

/-- The mutable globals guarded by mtx in main.go: isRecording,
recordingStarted, recordedData and lastEventTime (as a millisecond
timestamp). -/
structure RecState where
  isRecording : Bool
  recordingStarted : Bool
  recordedData : List MouseRecord
  lastEventTime : Int
deriving DecidableEq, Repr

/-- The zero-valued globals the process starts with. -/
def initState : RecState :=
  { isRecording := false, recordingStarted := false,
    recordedData := [], lastEventTime := 0 }

/-- dumpToFile (main.go:369-375): json.MarshalIndent never fails on
[]MouseRecord, so the only failure source is ioutil.WriteFile, modelled by
the writeOk oracle. -/
def dumpToFile (writeOk : Bool) (_data : List MouseRecord) : Except String Unit :=
  if writeOk then Except.ok () else Except.error "write failure"

/-- The VK_INSERT branch of keyboardHookProc (main.go:187-201), returning
the new state and the lines printed to the console. The Go code calls
`dumpToFile(recordFileName, recordedData)` as a bare statement at
main.go:193, discarding its error result; the `let _ :=` below models that
discard, so the observable outcome is independent of writeOk. -/
def insertToggle (writeOk : Bool) (now : Int) (s : RecState) :
    RecState × List String :=
  if s.recordingStarted then
    let _ := dumpToFile writeOk s.recordedData
    ({ s with isRecording := false, recordingStarted := false },
     ["[INFO] Insert key pressed -> Stop recording"])
  else
    ({ isRecording := true, recordingStarted := true,
       recordedData := [], lastEventTime := now },
     ["[INFO] Insert key pressed -> Start recording"])

/-- One invocation of mouseHookProc (main.go:217-283) with code >= 0:
classify the event, and if recording, append a MouseRecord whose DeltaMS
is now - lastEventTime and advance lastEventTime. -/
def mouseHookProc (now : Int) (wparam : Nat) (x y : Int) (mouseData : Nat)
    (s : RecState) : RecState :=
  let hi := highWord mouseData
  let ev := eventName wparam hi
  if s.isRecording then
    { s with
      lastEventTime := now,
      recordedData := s.recordedData ++
        [{ DeltaMS := now - s.lastEventTime, X := x, Y := y,
           Event := ev, Data := toInt32 hi }] }
  else s

/-- One raw mouse hook invocation: timestamp, message id, point, combined
MouseData field. -/
structure HookInput where
  now : Int
  wparam : Nat
  x : Int
  y : Int
  mouseData : Nat
deriving DecidableEq, Repr

/-- A run of consecutive mouse hook invocations folded through
mouseHookProc. -/
def runMouse (s : RecState) (evs : List HookInput) : RecState :=
  evs.foldl
    (fun st e => mouseHookProc e.now e.wparam e.x e.y e.mouseData st) s

/-- The records a recording run appends, one per hook invocation, with
DeltaMS chaining through the timestamps (used to state what runMouse
accumulates). -/
def recordsFrom (last : Int) : List HookInput → List MouseRecord
  | [] => []
  | e :: es =>
    { DeltaMS := e.now - last, X := e.x, Y := e.y,
      Event := eventName e.wparam (highWord e.mouseData),
      Data := toInt32 (highWord e.mouseData) } :: recordsFrom e.now es

/-- Adjacent differences of a timestamp sequence against a starting
instant. -/
def adjDiffs (prev : Int) : List Int → List Int
  | [] => []
  | t :: ts => (t - prev) :: adjDiffs t ts

/-- One observable effect on the Synthetic Input Backend: a
SetCursorPos call, a mouse_event call (flags, dx, dy, dwData), a SendInput
call for an extended button (flags, xbutton), or a time.Sleep of the given
milliseconds. -/
inductive MouseAction where
  | setCursorPos (x y : Int)
  | mouseEventCall (flags dx dy : Nat) (dwData : Int)
  | sendInputX (flags xbutton : Nat)
  | sleep (ms : Int)
deriving DecidableEq, Repr

/-- Whether an action is a call to the simple injection primitive
mouse_event. -/
def isSimpleCall : MouseAction → Bool
  | MouseAction.mouseEventCall _ _ _ _ => true
  | _ => false

/-- Whether an action injects input (button or wheel), as opposed to a
cursor move or a sleep. -/
def isInjection : MouseAction → Bool
  | MouseAction.mouseEventCall _ _ _ _ => true
  | MouseAction.sendInputX _ _ => true
  | _ => false

/-- sendMouseEvent (main.go:407-433): the dispatch from an event string to
the native call it performs. Legacy buttons and the wheel use mouse_event;
Mouse4/Mouse5 use SendInput via sendXButtonInput (main.go:141-158); every
other string (including "MouseMove" and "") performs no call. -/
def sendMouseEvent (event : String) (data : Int) : List MouseAction :=
  if event = "LeftButtonDown" then [MouseAction.mouseEventCall 0x02 0 0 0]
  else if event = "LeftButtonUp" then [MouseAction.mouseEventCall 0x04 0 0 0]
  else if event = "RightButtonDown" then [MouseAction.mouseEventCall 0x08 0 0 0]
  else if event = "RightButtonUp" then [MouseAction.mouseEventCall 0x10 0 0 0]
  else if event = "MouseWheel" then [MouseAction.mouseEventCall 0x0800 0 0 data]
  else if event = "Mouse4Down" then [MouseAction.sendInputX MOUSEEVENTF_XDOWN XBUTTON1]
  else if event = "Mouse4Up" then [MouseAction.sendInputX MOUSEEVENTF_XUP XBUTTON1]
  else if event = "Mouse5Down" then [MouseAction.sendInputX MOUSEEVENTF_XDOWN XBUTTON2]
  else if event = "Mouse5Up" then [MouseAction.sendInputX MOUSEEVENTF_XUP XBUTTON2]
  else []

/-- The nine event strings that cause an injection call on replay. -/
def injectableKinds : List String :=
  ["LeftButtonDown", "LeftButtonUp", "RightButtonDown", "RightButtonUp",
   "MouseWheel", "Mouse4Down", "Mouse4Up", "Mouse5Down", "Mouse5Up"]

/-- The per-element body of the replay loop (main.go:393-394):
setCursorPos, then sendMouseEvent. -/
def elemActions (r : MouseRecord) : List MouseAction :=
  MouseAction.setCursorPos r.X r.Y :: sendMouseEvent r.Event r.Data

/-- The replay loop of replayFromFile (main.go:389-395), carrying the Go
loop index i: for i different from 0 a sleep of DeltaMS precedes the
element's actions. -/
def replayLoop (i : Nat) : List MouseRecord → List MouseAction
  | [] => []
  | r :: rs =>
    (if i ≠ 0 then [MouseAction.sleep r.DeltaMS] else []) ++
      elemActions r ++ replayLoop (i + 1) rs

/-- The full action trace replay produces for a record list. -/
def replayActions (records : List MouseRecord) : List MouseAction :=
  replayLoop 0 records

/-- The replay loop with a backend-failure oracle: backendFails i says
whether the i-th injection call would fail inside the OS. The Go code
discards the return values of procMouseEvent.Call and procSendInput.Call
(main.go:407-433) and replayFromFile returns nil unconditionally after the
loop (main.go:397), so neither the result nor the trace depends on the
oracle. -/
def replayWithBackend (_backendFails : Nat → Bool)
    (records : List MouseRecord) : Except String Unit × List MouseAction :=
  (Except.ok (), replayActions records)

/-! ## Event codec

dumpToFile encodes with `json.MarshalIndent(data, "", "  ")` and
replayFromFile decodes with `json.Unmarshal(b, &records)`. Both live in
Go's encoding/json, outside this repository, so they are modelled here:
the encoder reproduces MarshalIndent's exact output for a []MouseRecord,
and the decoder is a whitespace-tolerant recursive-descent reading of
Unmarshal specialised to []MouseRecord (it accepts the field layout that
Marshal produces, checks the int64/int32 ranges as Unmarshal does, rejects
trailing garbage, and accepts a top-level null as the empty sequence). -/

/-- JSON insignificant whitespace, as skipped by encoding/json. -/
def isWsChar (c : Char) : Bool :=
  c = ' ' || c = '\n' || c = '\t' || c = '\r'

/-- Drop leading JSON whitespace. -/
def skipWs : List Char → List Char
  | [] => []
  | c :: cs => if isWsChar c then skipWs cs else c :: cs

/-- Whether the remaining characters are whitespace only. -/
def wsOnly (s : List Char) : Bool := s.all isWsChar

/-- Error-propagating sequencing for the decoder. -/
def pbind (x : Except String α) (f : α → Except String β) : Except String β :=
  match x with
  | Except.error e => Except.error e
  | Except.ok a => f a

/-- Consume an expected literal character sequence. -/
def expectChars : List Char → List Char → Except String (List Char)
  | [], s => Except.ok s
  | _ :: _, [] => Except.error "unexpected end of JSON input"
  | c :: cs, d :: ds =>
      if c = d then expectChars cs ds else Except.error "unexpected character"

/-- The decimal digit character for a value below ten. -/
def digitChar (n : Nat) : Char := Char.ofNat (48 + n)

/-- Decimal digits of a natural number, most significant first, as
strconv emits them. -/
def natDigits (n : Nat) : List Char :=
  if _h : n < 10 then [digitChar n]
  else natDigits (n / 10) ++ [digitChar (n % 10)]
termination_by n
decreasing_by exact Nat.div_lt_self (by omega) (by omega)

/-- Decimal rendering of an Int, as strconv.AppendInt base 10 emits it. -/
def intToChars (i : Int) : List Char :=
  if i < 0 then '-' :: natDigits i.natAbs else natDigits i.toNat

/-- Split a maximal run of leading decimal digits. -/
def spanDigits : List Char → List Char × List Char
  | [] => ([], [])
  | c :: cs =>
      if c.isDigit then
        let p := spanDigits cs
        (c :: p.1, p.2)
      else ([], c :: cs)

/-- Value of a digit string read left to right. -/
def digitsVal (ds : List Char) : Nat :=
  ds.foldl (fun a c => a * 10 + (c.toNat - 48)) 0

/-- Parse a JSON natural-number literal (no leading zero unless the number
is zero itself, as the JSON grammar requires). -/
def parseNatDigits (s : List Char) : Except String (Nat × List Char) :=
  match spanDigits s with
  | ([], _) => Except.error "invalid number"
  | (c :: cs, rest) =>
      if c = '0' ∧ cs ≠ [] then Except.error "invalid number"
      else Except.ok (digitsVal (c :: cs), rest)

/-- Parse a JSON integer literal with optional leading minus. Fractions
and exponents are rejected just as Unmarshal rejects them for an integer
target field. -/
def parseJsonInt (s : List Char) : Except String (Int × List Char) :=
  match s with
  | [] => Except.error "invalid number"
  | c :: rest =>
      if c = '-' then
        pbind (parseNatDigits rest) fun p => Except.ok (-(p.1 : Int), p.2)
      else
        pbind (parseNatDigits (c :: rest)) fun p => Except.ok ((p.1 : Int), p.2)

/-- Hexadecimal digit value, for string escapes. -/
def hexVal (c : Char) : Option Nat :=
  if c.isDigit then some (c.toNat - 48)
  else if 'a' ≤ c ∧ c ≤ 'f' then some (c.toNat - 87)
  else if 'A' ≤ c ∧ c ≤ 'F' then some (c.toNat - 55)
  else none

/-- Single-character JSON escapes. -/
def escChar (e : Char) : Option Char :=
  if e = '"' then some '"'
  else if e = '\\' then some '\\'
  else if e = '/' then some '/'
  else if e = 'n' then some '\n'
  else if e = 't' then some '\t'
  else if e = 'r' then some '\r'
  else if e = 'b' then some (Char.ofNat 8)
  else if e = 'f' then some (Char.ofNat 12)
  else none

/-- Parse the body of a JSON string after its opening quote, up to and
including the closing quote. -/
def parseStringBody : List Char → Except String (List Char × List Char)
  | [] => Except.error "unterminated string"
  | c :: rest =>
      if c = '"' then Except.ok ([], rest)
      else if c = '\\' then
        match rest with
        | [] => Except.error "unterminated string"
        | e :: rest2 =>
            if e = 'u' then
              match rest2 with
              | h1 :: h2 :: h3 :: h4 :: rest3 =>
                  match hexVal h1, hexVal h2, hexVal h3, hexVal h4 with
                  | some a, some b, some c3, some d =>
                      pbind (parseStringBody rest3) fun p =>
                        Except.ok (Char.ofNat (4096 * a + 256 * b + 16 * c3 + d) :: p.1, p.2)
                  | _, _, _, _ => Except.error "invalid escape"
              | _ => Except.error "invalid escape"
            else
              match escChar e with
              | some ec =>
                  pbind (parseStringBody rest2) fun p => Except.ok (ec :: p.1, p.2)
              | none => Except.error "invalid escape"
      else if c.toNat < 32 then Except.error "invalid control character in string"
      else pbind (parseStringBody rest) fun p => Except.ok (c :: p.1, p.2)

/-- Characters Marshal emits verbatim inside a string: printable, not a
quote or backslash, not one of the HTML-escaped characters, not
U+2028/U+2029. -/
abbrev plainChar (c : Char) : Prop :=
  c ≠ '"' ∧ c ≠ '\\' ∧ c ≠ '<' ∧ c ≠ '>' ∧ c ≠ '&' ∧
    32 ≤ c.toNat ∧ c.toNat ≠ 8232 ∧ c.toNat ≠ 8233

/-- Lowercase hex digit character. -/
def hexDigit (n : Nat) : Char :=
  if n < 10 then Char.ofNat (48 + n) else Char.ofNat (87 + n)

/-- A four-hex-digit unicode escape. -/
def uEscape (n : Nat) : List Char :=
  '\\' :: 'u' :: hexDigit (n / 4096 % 16) :: hexDigit (n / 256 % 16) ::
    hexDigit (n / 16 % 16) :: hexDigit (n % 16) :: []

/-- Marshal's encoding of one string character. -/
def encodeChar (c : Char) : List Char :=
  if plainChar c then [c]
  else if c = '"' then '\\' :: '"' :: []
  else if c = '\\' then '\\' :: '\\' :: []
  else if c = '\n' then '\\' :: 'n' :: []
  else if c = '\r' then '\\' :: 'r' :: []
  else if c = '\t' then '\\' :: 't' :: []
  else uEscape c.toNat

/-- Marshal's encoding of a string body. -/
def encodeStringBody : List Char → List Char
  | [] => []
  | c :: cs => encodeChar c ++ encodeStringBody cs

/-- Go int64 range. -/
abbrev fitsInt64 (n : Int) : Prop :=
  -9223372036854775808 ≤ n ∧ n < 9223372036854775808

/-- Go int32 range. -/
abbrev fitsInt32 (n : Int) : Prop := -2147483648 ≤ n ∧ n < 2147483648

/-- Key of the DeltaMS field. -/
def keyDeltaMS : List Char := ['D', 'e', 'l', 't', 'a', 'M', 'S']

/-- Key of the X field. -/
def keyX : List Char := ['X']

/-- Key of the Y field. -/
def keyY : List Char := ['Y']

/-- Key of the Event field. -/
def keyEvent : List Char := ['E', 'v', 'e', 'n', 't']

/-- Key of the Data field. -/
def keyData : List Char := ['D', 'a', 't', 'a']

/-- Parse `"key": <int>` with surrounding whitespace. -/
def parseIntField (key : List Char) (s : List Char) :
    Except String (Int × List Char) :=
  pbind (expectChars ('"' :: key ++ ['"']) (skipWs s)) fun s1 =>
  pbind (expectChars [':'] (skipWs s1)) fun s2 =>
  parseJsonInt (skipWs s2)

/-- Parse `"key": "<string>"` with surrounding whitespace. -/
def parseQuoted : List Char → Except String (String × List Char)
  | [] => Except.error "unexpected end of JSON input"
  | c :: rest =>
      if c = '"' then
        pbind (parseStringBody rest) fun p => Except.ok (String.mk p.1, p.2)
      else Except.error "expected string"

/-- Parse `"key": "<string>"` with surrounding whitespace. -/
def parseStrField (key : List Char) (s : List Char) :
    Except String (String × List Char) :=
  pbind (expectChars ('"' :: key ++ ['"']) (skipWs s)) fun s1 =>
  pbind (expectChars [':'] (skipWs s1)) fun s2 =>
  parseQuoted (skipWs s2)

/-- Consume a comma token with leading whitespace. -/
def expectComma (s : List Char) : Except String (List Char) :=
  expectChars [','] (skipWs s)

/-- Parse one MouseRecord object in the field order Marshal emits
(struct declaration order), with Unmarshal's int64/int32 overflow
checks. -/
def parseRecord (s : List Char) : Except String (MouseRecord × List Char) :=
  pbind (expectChars ['\x7b'] (skipWs s)) fun s0 =>
  pbind (parseIntField keyDeltaMS s0) fun p1 =>
  pbind (expectComma p1.2) fun s1 =>
  pbind (parseIntField keyX s1) fun p2 =>
  pbind (expectComma p2.2) fun s2 =>
  pbind (parseIntField keyY s2) fun p3 =>
  pbind (expectComma p3.2) fun s3 =>
  pbind (parseStrField keyEvent s3) fun p4 =>
  pbind (expectComma p4.2) fun s4 =>
  pbind (parseIntField keyData s4) fun p5 =>
  pbind (expectChars ['\x7d'] (skipWs p5.2)) fun s5 =>
  if fitsInt64 p1.1 ∧ fitsInt32 p2.1 ∧ fitsInt32 p3.1 ∧ fitsInt32 p5.1 then
    Except.ok ({ DeltaMS := p1.1, X := p2.1, Y := p3.1,
                 Event := p4.1, Data := p5.1 }, s5)
  else Except.error "integer overflow"

/-- After a parsed array element: a comma continues with the given
continuation, a closing bracket ends the array. -/
def parseItemsAfter (next : List Char → Except String (List MouseRecord × List Char))
    (r : MouseRecord) : List Char → Except String (List MouseRecord × List Char)
  | [] => Except.error "unexpected end of JSON input"
  | c :: rest =>
      if c = ',' then
        pbind (next rest) fun pp => Except.ok (r :: pp.1, pp.2)
      else if c = ']' then Except.ok ([r], rest)
      else Except.error "invalid character in array"

/-- Parse the non-empty element list of the top-level array, one record per
fuel unit, consuming the closing bracket. -/
def parseItems : Nat → List Char → Except String (List MouseRecord × List Char)
  | 0, _ => Except.error "array nesting exhausted"
  | fuel + 1, s =>
      pbind (parseRecord s) fun pr =>
        parseItemsAfter (parseItems fuel) pr.1 (skipWs pr.2)

/-- Continue decoding after the opening bracket of the top-level array. -/
def decodeAfterBracket (origLen : Nat) :
    List Char → Except String (List MouseRecord)
  | [] => Except.error "unexpected end of JSON input"
  | d :: urest =>
      if d = ']' then
        if wsOnly urest then Except.ok []
        else Except.error "invalid character after top-level value"
      else
        pbind (parseItems (origLen + 1) (d :: urest)) fun pp =>
          if wsOnly pp.2 then Except.ok pp.1
          else Except.error "invalid character after top-level value"

/-- Decode a whitespace-stripped top-level value. -/
def decodeTop (origLen : Nat) : List Char → Except String (List MouseRecord)
  | [] => Except.error "unexpected end of JSON input"
  | c :: rest =>
      if c = '[' then decodeAfterBracket origLen (skipWs rest)
      else if c = 'n' then
        pbind (expectChars ['u', 'l', 'l'] rest) fun tail =>
          if wsOnly tail then Except.ok []
          else Except.error "invalid character after top-level value"
      else Except.error "looking for beginning of value"

/-- Decode a character sequence as Unmarshal does into []MouseRecord: a
top-level array of record objects, or null (which leaves the slice nil,
hence the empty sequence). -/
def decodeChars (s : List Char) : Except String (List MouseRecord) :=
  decodeTop s.length (skipWs s)

/-- Decode persisted bytes into the record sequence
(json.Unmarshal at main.go:384). -/
def decodeRecords (s : String) : Except String (List MouseRecord) :=
  decodeChars s.data

/-- The newline, four-space field indentation and quoted key before an
integer field value: MarshalIndent writes a newline, the indent, the
quoted key, a colon and one space. -/
def fieldSeg (key : List Char) (after : List Char) : List Char :=
  '\n' :: ' ' :: ' ' :: ' ' :: ' ' :: '"' :: (key ++ '"' :: ':' :: ' ' :: after)

/-- Same as fieldSeg with the opening quote of a string value. -/
def fieldSegStr (key : List Char) (after : List Char) : List Char :=
  '\n' :: ' ' :: ' ' :: ' ' :: ' ' :: '"' :: (key ++ '"' :: ':' :: ' ' :: '"' :: after)

/-- MarshalIndent's rendering of one record after its opening brace at
element indentation (prefix empty, indent two spaces). -/
def recBody (r : MouseRecord) : List Char :=
  fieldSeg keyDeltaMS (intToChars r.DeltaMS ++
    ',' :: fieldSeg keyX (intToChars r.X ++
      ',' :: fieldSeg keyY (intToChars r.Y ++
        ',' :: fieldSegStr keyEvent (encodeStringBody r.Event.data ++
          '"' :: ',' :: fieldSeg keyData (intToChars r.Data ++
            '\n' :: ' ' :: ' ' :: '\x7d' :: [])))))

/-- MarshalIndent's rendering of one record, including its two-space
element indentation and opening brace. -/
def encodeRecord (r : MouseRecord) : List Char :=
  ' ' :: ' ' :: '\x7b' :: recBody r

/-- The comma-newline separated record sequence inside the array. -/
def encSeq : List MouseRecord → List Char
  | [] => []
  | r :: [] => encodeRecord r
  | r :: rs => encodeRecord r ++ ',' :: '\n' :: encSeq rs

/-- MarshalIndent's output for the whole slice as characters. -/
def encodeChars : List MouseRecord → List Char
  | [] => ['[', ']']
  | rs => '[' :: '\n' :: encSeq rs ++ '\n' :: ']' :: []

/-- Encode a record sequence to the persisted byte form
(json.MarshalIndent at main.go:370). -/
def encodeRecords (rs : List MouseRecord) : String :=
  String.mk (encodeChars rs)

/-- replayFromFile (main.go:377-398) with a backend oracle and the file
content as input: read failure and decode failure return the error before
the loop; otherwise the loop runs to completion and nil is returned, the
backend results being discarded. -/
def replayFromFile (_backendFails : Nat → Bool) (content : Option String) :
    Except String Unit × List MouseAction :=
  match content with
  | none => (Except.error "read failure", [])
  | some text =>
      match decodeRecords text with
      | Except.error e => (Except.error e, [])
      | Except.ok records => (Except.ok (), replayActions records)

/-- Side conditions under which a MouseRecord is representable by the Go
struct: DeltaMS fits int64, the coordinates and Data fit int32, and the
Event tag consists of characters Marshal writes verbatim (every tag the
program produces is such a string). -/
def recordOK (r : MouseRecord) : Prop :=
  fitsInt64 r.DeltaMS ∧ fitsInt32 r.X ∧ fitsInt32 r.Y ∧ fitsInt32 r.Data ∧
    ∀ c ∈ r.Event.data, plainChar c

instance (r : MouseRecord) : Decidable (recordOK r) := by
  unfold recordOK; infer_instance

/-- Timestamp threaded to after a run of hook events. -/
def lastTime (last : Int) : List HookInput → Int
  | [] => last
  | e :: es => lastTime e.now es

/-- The next character, if any, is not a decimal digit (the context in
which a number literal ends). -/
def headNotDigit : List Char → Prop
  | [] => True
  | c :: _ => c.isDigit = false

/-- The separator encSeq places between the first record and the rest. -/
def encSepTail : List MouseRecord → List Char
  | [] => []
  | r :: rs => ',' :: '\n' :: encSeq (r :: rs)

/-! ## Helper lemmas -/

@[simp] theorem pbind_ok (a : α) (f : α → Except String β) :
    pbind (Except.ok a) f = f a := rfl

@[simp] theorem pbind_err (e : String) (f : α → Except String β) :
    pbind (Except.error e) f = Except.error e := rfl

theorem replayLoop_succ (rs : List MouseRecord) : ∀ i : Nat,
    replayLoop (i + 1) rs =
      rs.flatMap fun q => MouseAction.sleep q.DeltaMS :: elemActions q := by
  induction rs with
  | nil => intro i; rfl
  | cons q qs ih =>
      intro i
      simp [replayLoop, ih (i + 1), List.flatMap_cons]

theorem replayLoop_append (xs : List MouseRecord) : ∀ (i : Nat) (ys : List MouseRecord),
    replayLoop i (xs ++ ys) = replayLoop i xs ++ replayLoop (i + xs.length) ys := by
  induction xs with
  | nil => intro i ys; simp [replayLoop]
  | cons x xs ih =>
      intro i ys
      show (if i ≠ 0 then [MouseAction.sleep x.DeltaMS] else []) ++
          elemActions x ++ replayLoop (i + 1) (xs ++ ys) = _
      rw [ih (i + 1) ys, show i + 1 + xs.length = i + (xs.length + 1) from by omega]
      show _ = ((if i ≠ 0 then [MouseAction.sleep x.DeltaMS] else []) ++
          elemActions x ++ replayLoop (i + 1) xs) ++
            replayLoop (i + (xs.length + 1)) ys
      simp [List.append_assoc]

theorem sendMouseEvent_nil_iff (e : String) (d : Int) :
    sendMouseEvent e d = [] ↔ e ∉ injectableKinds := by
  unfold sendMouseEvent
  split_ifs with h1 h2 h3 h4 h5 h6 h7 h8 h9
  · exact iff_of_false (by simp) (by subst h1; decide)
  · exact iff_of_false (by simp) (by subst h2; decide)
  · exact iff_of_false (by simp) (by subst h3; decide)
  · exact iff_of_false (by simp) (by subst h4; decide)
  · exact iff_of_false (by simp) (by subst h5; decide)
  · exact iff_of_false (by simp) (by subst h6; decide)
  · exact iff_of_false (by simp) (by subst h7; decide)
  · exact iff_of_false (by simp) (by subst h8; decide)
  · exact iff_of_false (by simp) (by subst h9; decide)
  · refine iff_of_true rfl ?_
    intro hm
    simp only [injectableKinds, List.mem_cons, List.not_mem_nil, or_false] at hm
    rcases hm with h | h | h | h | h | h | h | h | h
    · exact h1 h
    · exact h2 h
    · exact h3 h
    · exact h4 h
    · exact h5 h
    · exact h6 h
    · exact h7 h
    · exact h8 h
    · exact h9 h

theorem runMouse_recording (evs : List HookInput) :
    ∀ (st : Bool) (acc : List MouseRecord) (last : Int),
      runMouse { isRecording := true, recordingStarted := st,
                 recordedData := acc, lastEventTime := last } evs =
        { isRecording := true, recordingStarted := st,
          recordedData := acc ++ recordsFrom last evs,
          lastEventTime := lastTime last evs } := by
  induction evs with
  | nil => intro st acc last; simp [runMouse, recordsFrom, lastTime]
  | cons e es ih =>
      intro st acc last
      simp only [runMouse, List.foldl_cons] at *
      rw [show mouseHookProc e.now e.wparam e.x e.y e.mouseData
            { isRecording := true, recordingStarted := st,
              recordedData := acc, lastEventTime := last } =
          { isRecording := true, recordingStarted := st,
            recordedData := acc ++
              [{ DeltaMS := e.now - last, X := e.x, Y := e.y,
                 Event := eventName e.wparam (highWord e.mouseData),
                 Data := toInt32 (highWord e.mouseData) }],
            lastEventTime := e.now } from rfl]
      rw [ih]
      simp [recordsFrom, lastTime, List.append_assoc]

theorem recordsFrom_deltas (evs : List HookInput) : ∀ last : Int,
    (recordsFrom last evs).map MouseRecord.DeltaMS =
      adjDiffs last (evs.map HookInput.now) := by
  induction evs with
  | nil => intro last; rfl
  | cons e es ih => intro last; simp [recordsFrom, adjDiffs, ih e.now]

theorem adjDiffs_nonneg (ts : List Int) : ∀ prev : Int,
    List.Chain (fun a b => a ≤ b) prev ts →
    ∀ d ∈ adjDiffs prev ts, 0 ≤ d := by
  induction ts with
  | nil => intro prev _ d hd; simp [adjDiffs] at hd
  | cons t ts ih =>
      intro prev hch d hd
      rcases List.chain_cons.mp hch with ⟨hle, hch2⟩
      simp only [adjDiffs, List.mem_cons] at hd
      rcases hd with rfl | hd
      · omega
      · exact ih t hch2 d hd

/-! ## Claim theorems (capture, dispatch and replay) -/

/-- C2: the claim says a captured wheel event whose combined field encodes
a negative delta records that negative signed value and replays it. The
code does not sign-extend: for MouseData 0xFF880000 (wheel delta -120, one
notch down) the spec-side signed high word is -120, but the recorded Data
is 65416 (non-negative) and replay hands 65416 to mouse_event. -/
theorem c2_wheel_sign_bug :
    specSignedHighWord 0xFF880000 = -120 ∧
    (mouseHookProc 3 WM_MOUSEWHEEL 10 20 0xFF880000
        ((insertToggle true 0 initState).1)).recordedData =
      [{ DeltaMS := 3, X := 10, Y := 20, Event := "MouseWheel", Data := 65416 }] ∧
    toInt32 (highWord 0xFF880000) = 65416 ∧
    ¬ ((65416 : Int) < 0) ∧
    sendMouseEvent "MouseWheel" 65416 =
      [MouseAction.mouseEventCall 0x0800 0 0 65416] := by
  refine ⟨by decide, by decide, by decide, by decide, by decide⟩

/-- C3 counterexample: recording starts at t = 0 and the first mouse event
arrives at t = 5; the first appended record has DeltaMS 5, not 0. -/
theorem c3_first_delta_counterexample :
    (runMouse ((insertToggle true 0 initState).1)
        [{ now := 5, wparam := 512, x := 1, y := 2, mouseData := 0 }]).recordedData.map
      MouseRecord.DeltaMS = [5] ∧ (5 : Int) ≠ 0 := by
  refine ⟨by decide, by decide⟩

/-- C3 amended: the first event's delta_ms equals the elapsed time since
recording started (zero only when it arrives in the same millisecond);
every later delta_ms is the elapsed time since the previous event; with a
monotone capture clock every delta_ms is non-negative. -/
theorem c3_first_delta_amended (w : Bool) (t0 : Int) (evs : List HookInput)
    (hmono : List.Chain (fun a b => a ≤ b) t0 (evs.map HookInput.now)) :
    (runMouse ((insertToggle w t0 initState).1) evs).recordedData.map
        MouseRecord.DeltaMS = adjDiffs t0 (evs.map HookInput.now) ∧
    ∀ d ∈ (runMouse ((insertToggle w t0 initState).1) evs).recordedData.map
        MouseRecord.DeltaMS, 0 ≤ d := by
  have hstart : (insertToggle w t0 initState).1 =
      { isRecording := true, recordingStarted := true,
        recordedData := [], lastEventTime := t0 } := rfl
  constructor
  · rw [hstart, runMouse_recording]
    simp [recordsFrom_deltas]
  · rw [hstart, runMouse_recording]
    simp only [List.nil_append, recordsFrom_deltas]
    exact adjDiffs_nonneg (evs.map HookInput.now) t0 hmono

/-- Witness for c3_first_delta_amended at a concrete monotone run. -/
theorem c3_first_delta_witness :
    List.Chain (fun a b : Int => a ≤ b) 0 [5, 9] ∧
    (runMouse ((insertToggle true 0 initState).1)
        [{ now := 5, wparam := 512, x := 1, y := 2, mouseData := 0 },
         { now := 9, wparam := 512, x := 3, y := 4, mouseData := 0 }]).recordedData.map
      MouseRecord.DeltaMS = adjDiffs 0 [5, 9] :=
  ⟨List.Chain.cons (by decide) (List.Chain.cons (by decide) List.Chain.nil),
   (c3_first_delta_amended true 0
      [{ now := 5, wparam := 512, x := 1, y := 2, mouseData := 0 },
       { now := 9, wparam := 512, x := 3, y := 4, mouseData := 0 }]
      (List.Chain.cons (by decide) (List.Chain.cons (by decide) List.Chain.nil))).1⟩

/-- C4: Mouse4Down/Up route to SendInput with xbutton 1, Mouse5Down/Up
with xbutton 2, and none of the four produces a mouse_event call. -/
theorem c4_xbutton_dispatch : ∀ d : Int,
    sendMouseEvent "Mouse4Down" d =
      [MouseAction.sendInputX MOUSEEVENTF_XDOWN XBUTTON1] ∧
    sendMouseEvent "Mouse4Up" d =
      [MouseAction.sendInputX MOUSEEVENTF_XUP XBUTTON1] ∧
    sendMouseEvent "Mouse5Down" d =
      [MouseAction.sendInputX MOUSEEVENTF_XDOWN XBUTTON2] ∧
    sendMouseEvent "Mouse5Up" d =
      [MouseAction.sendInputX MOUSEEVENTF_XUP XBUTTON2] ∧
    ((sendMouseEvent "Mouse4Down" d ++ sendMouseEvent "Mouse4Up" d ++
        sendMouseEvent "Mouse5Down" d ++ sendMouseEvent "Mouse5Up" d).all
      fun a => !(isSimpleCall a)) = true :=
  fun _ => ⟨rfl, rfl, rfl, rfl, rfl⟩

/-- C5: replay synthesizes element 0 with no preceding wait, and for every
later element sleeps exactly its DeltaMS milliseconds before its
actions. -/
theorem c5_replay_pacing : ∀ (r : MouseRecord) (rs : List MouseRecord),
    replayActions ([] : List MouseRecord) = [] ∧
    replayActions (r :: rs) =
      elemActions r ++
        rs.flatMap (fun q => MouseAction.sleep q.DeltaMS :: elemActions q) := by
  intro r rs
  refine ⟨rfl, ?_⟩
  show replayLoop 0 (r :: rs) = _
  simp [replayLoop, replayLoop_succ rs 0]

/-- C6: each element first sets the cursor to (X, Y); an injection call
follows exactly when the Event tag is one of the nine injectable kinds;
a MouseMove element produces only the cursor move. -/
theorem c6_replay_order : ∀ (r : MouseRecord) (delta x y d : Int),
    elemActions r =
      MouseAction.setCursorPos r.X r.Y :: sendMouseEvent r.Event r.Data ∧
    (sendMouseEvent r.Event r.Data).isEmpty =
      !(decide (r.Event ∈ injectableKinds)) ∧
    elemActions { DeltaMS := delta, X := x, Y := y,
                  Event := "MouseMove", Data := d } =
      [MouseAction.setCursorPos x y] := by
  intro r delta x y d
  refine ⟨rfl, ?_, rfl⟩
  have h := sendMouseEvent_nil_iff r.Event r.Data
  by_cases hm : r.Event ∈ injectableKinds
  · cases hse : sendMouseEvent r.Event r.Data with
    | nil => exact absurd hm (h.mp hse)
    | cons a l => simp [hm]
  · have hnil : sendMouseEvent r.Event r.Data = [] := h.mpr hm
    simp [hnil, hm]

/-- Record pair used to refute C7. -/
def c7Records : List MouseRecord :=
  [{ DeltaMS := 0, X := 0, Y := 0, Event := "LeftButtonDown", Data := 0 },
   { DeltaMS := 10, X := 0, Y := 0, Event := "LeftButtonUp", Data := 0 }]

/-- C7 counterexample: with a backend that fails every injection, replay of
a two-element sequence still performs both injections and returns success;
no error naming a failed index exists. -/
theorem c7_backend_counterexample :
    replayWithBackend (fun _ => true) c7Records =
      (Except.ok (),
       [MouseAction.setCursorPos 0 0, MouseAction.mouseEventCall 2 0 0 0,
        MouseAction.sleep 10, MouseAction.setCursorPos 0 0,
        MouseAction.mouseEventCall 4 0 0 0]) ∧
    (replayWithBackend (fun _ => true) c7Records).2.countP isInjection = 2 :=
  ⟨rfl, rfl⟩

/-- C7 amended: the replay engine cannot observe backend failures — the
injection primitives' results are discarded, every element is processed
and replay reports success regardless of the backend; errors are surfaced
only for file read and decode failures. -/
theorem c7_backend_amended :
    ∀ (fails fails2 : Nat → Bool) (records : List MouseRecord)
      (content : Option String),
      replayWithBackend fails records = (Except.ok (), replayActions records) ∧
      replayFromFile fails content = replayFromFile fails2 content :=
  fun _ _ _ _ => ⟨rfl, rfl⟩

/-- C8: stopping the recording with a failing write produces output
identical to a successful save — the dumpToFile error is discarded at
main.go:193, so nothing reports the failure — while the in-memory data is
indeed preserved. The claim's reporting half is false of the code. -/
theorem c8_write_failure_bug (now : Int) (s : RecState)
    (h : s.recordingStarted = true) :
    insertToggle false now s = insertToggle true now s ∧
    (insertToggle false now s).1.recordedData = s.recordedData ∧
    (insertToggle false now s).2 =
      ["[INFO] Insert key pressed -> Stop recording"] := by
  refine ⟨rfl, ?_, ?_⟩ <;> simp [insertToggle, h]

/-- Witness for c8_write_failure_bug on a state that is recording. -/
theorem c8_write_failure_witness :
    ((insertToggle true 0 initState).1.recordingStarted = true) ∧
    (insertToggle false 1 (insertToggle true 0 initState).1).2 =
      ["[INFO] Insert key pressed -> Stop recording"] :=
  ⟨rfl, (c8_write_failure_bug 1 _ rfl).2.2⟩

/-- C10: a decoded record whose Event tag is not one of the nine
injectable kinds — including the empty tag capture produces for an
extended-button message with high word outside 1 and 2 — still gets its
cursor move, injects nothing, raises no error, and the remaining records
are processed normally. -/
theorem c10_unknown_kind (r : MouseRecord)
    (h : r.Event ∉ injectableKinds) :
    elemActions r = [MouseAction.setCursorPos r.X r.Y] ∧
    (∀ (pre post : List MouseRecord),
      replayActions (pre ++ r :: post) =
        replayActions pre ++
          (if pre = [] then [] else [MouseAction.sleep r.DeltaMS]) ++
          MouseAction.setCursorPos r.X r.Y ::
            post.flatMap (fun q => MouseAction.sleep q.DeltaMS :: elemActions q)) ∧
    (∀ (fails : Nat → Bool) (text : String) (recs : List MouseRecord),
      decodeRecords text = Except.ok recs →
        replayFromFile fails (some text) = (Except.ok (), replayActions recs)) ∧
    eventName WM_XBUTTONDOWN 3 = "" ∧ ("" : String) ∉ injectableKinds := by
  have hnil : sendMouseEvent r.Event r.Data = [] :=
    (sendMouseEvent_nil_iff r.Event r.Data).mpr h
  have helem : elemActions r = [MouseAction.setCursorPos r.X r.Y] := by
    simp [elemActions, hnil]
  refine ⟨helem, ?_, ?_, by decide, by decide⟩
  · intro pre post
    show replayLoop 0 (pre ++ r :: post) = _
    rw [replayLoop_append pre 0 (r :: post)]
    cases pre with
    | nil =>
        simp only [List.length_nil, Nat.zero_add, List.nil_append,
          replayLoop, if_neg (by omega : ¬ (0 : Nat) ≠ 0)]
        simp [helem, replayLoop_succ post 0, replayActions, replayLoop]
    | cons p ps =>
        have h1 : 0 + (p :: ps).length = ps.length + 1 := by simp
        rw [h1]
        rw [show replayLoop (ps.length + 1) (r :: post) =
            (if ps.length + 1 ≠ 0 then [MouseAction.sleep r.DeltaMS] else []) ++
              elemActions r ++ replayLoop (ps.length + 1 + 1) post from rfl]
        rw [if_pos (by omega), helem, replayLoop_succ post (ps.length + 1)]
        simp [replayActions]
  · intro fails text recs hdec
    simp [replayFromFile, hdec]

/-- Witness for c10_unknown_kind at the empty tag. -/
theorem c10_unknown_kind_witness :
    (("" : String) ∉ injectableKinds) ∧
    elemActions { DeltaMS := 7, X := 1, Y := 2, Event := "", Data := 9 } =
      [MouseAction.setCursorPos 1 2] :=
  ⟨by decide, (c10_unknown_kind _ (by decide)).1⟩

/-! ## Codec lemmas: digits and whitespace -/

theorem digitChar_isDigit (d : Nat) (h : d < 10) :
    (digitChar d).isDigit = true := by
  interval_cases d <;> decide

theorem digitChar_toNat (d : Nat) (h : d < 10) :
    (digitChar d).toNat = 48 + d := by
  interval_cases d <;> decide

theorem digitChar_ne_zero (d : Nat) (h1 : 1 ≤ d) (h : d < 10) :
    digitChar d ≠ '0' := by
  interval_cases d <;> decide

theorem digit_not_ws (c : Char) (h : c.isDigit = true) : isWsChar c = false := by
  rcases Bool.eq_false_or_eq_true (isWsChar c) with ht | hf
  · exfalso
    simp only [isWsChar, Bool.or_eq_true, decide_eq_true_eq] at ht
    rcases ht with ((h1 | h1) | h1) | h1 <;> subst h1 <;> simp at h
  · exact hf

theorem digit_ne_minus (c : Char) (h : c.isDigit = true) : c ≠ '-' := by
  intro hc; subst hc; simp at h

theorem natDigits_ne_nil (n : Nat) : natDigits n ≠ [] := by
  rw [natDigits]
  split_ifs <;> simp

theorem natDigits_all_digit (n : Nat) : ∀ c ∈ natDigits n, c.isDigit = true := by
  induction n using Nat.strong_induction_on with
  | _ n ih =>
      rw [natDigits]
      split_ifs with h
      · intro c hc
        simp only [List.mem_singleton] at hc
        subst hc
        exact digitChar_isDigit n h
      · intro c hc
        rcases List.mem_append.mp hc with hc | hc
        · exact ih (n / 10) (Nat.div_lt_self (by omega) (by omega)) c hc
        · simp only [List.mem_singleton] at hc
          subst hc
          exact digitChar_isDigit (n % 10) (Nat.mod_lt n (by omega))

theorem natDigits_head_ne_zero (n : Nat) (hn : 1 ≤ n) :
    ∀ c cs, natDigits n = c :: cs → c ≠ '0' := by
  induction n using Nat.strong_induction_on with
  | _ n ih =>
      intro c cs heq
      rw [natDigits] at heq
      split_ifs at heq with h
      · simp only [List.cons.injEq] at heq
        exact heq.1 ▸ digitChar_ne_zero n hn h
      · rcases hnd : natDigits (n / 10) with _ | ⟨c2, cs2⟩
        · exact absurd hnd (natDigits_ne_nil (n / 10))
        · rw [hnd] at heq
          simp only [List.cons_append, List.cons.injEq] at heq
          have hdiv : 1 ≤ n / 10 := by
            have : 10 ≤ n := by omega
            omega
          exact heq.1 ▸ ih (n / 10) (Nat.div_lt_self (by omega) (by omega)) hdiv c2 cs2 hnd

theorem natDigits_foldl (n : Nat) : ∀ a : Nat,
    (natDigits n).foldl (fun a c => a * 10 + (c.toNat - 48)) a =
      a * 10 ^ (natDigits n).length + n := by
  induction n using Nat.strong_induction_on with
  | _ n ih =>
      intro a
      rw [natDigits]
      split_ifs with h
      · simp [digitChar_toNat n h]
      · rw [List.foldl_append,
          ih (n / 10) (Nat.div_lt_self (by omega) (by omega)) a]
        simp only [List.foldl_cons, List.foldl_nil, List.length_append,
          List.length_cons, List.length_nil]
        rw [digitChar_toNat (n % 10) (Nat.mod_lt n (by omega))]
        rw [pow_succ, ← Nat.mul_assoc]
        generalize a * 10 ^ (natDigits (n / 10)).length = M
        omega

theorem digitsVal_natDigits (n : Nat) : digitsVal (natDigits n) = n := by
  have h := natDigits_foldl n 0
  simpa [digitsVal] using h

theorem spanDigits_append (ds : List Char) : ∀ rest : List Char,
    (∀ c ∈ ds, c.isDigit = true) → headNotDigit rest →
    spanDigits (ds ++ rest) = (ds, rest) := by
  induction ds with
  | nil =>
      intro rest _ hrest
      cases rest with
      | nil => rfl
      | cons c cs =>
          simp only [headNotDigit] at hrest
          simp [spanDigits, hrest]
  | cons d ds ih =>
      intro rest hds hrest
      have hd : d.isDigit = true := hds d (List.mem_cons_self d ds)
      simp only [List.cons_append, spanDigits, hd, if_pos, List.append_eq,
        ih rest (fun c hc => hds c (List.mem_cons_of_mem d hc)) hrest]

theorem skipWs_ws (c : Char) (h : isWsChar c = true) (s : List Char) :
    skipWs (c :: s) = skipWs s := by
  simp [skipWs, h]

theorem skipWs_not (c : Char) (h : isWsChar c = false) (s : List Char) :
    skipWs (c :: s) = c :: s := by
  simp [skipWs, h]

theorem skipWs_idem (s : List Char) : skipWs (skipWs s) = skipWs s := by
  induction s with
  | nil => rfl
  | cons c cs ih =>
      rcases Bool.eq_false_or_eq_true (isWsChar c) with ht | hf
      · rw [skipWs_ws c ht, ih]
      · rw [skipWs_not c hf, skipWs_not c hf]

theorem expectChars_append (lit : List Char) : ∀ s : List Char,
    expectChars lit (lit ++ s) = Except.ok s := by
  induction lit with
  | nil => intro s; rfl
  | cons c cs ih =>
      intro s
      simp only [List.cons_append, expectChars, if_pos rfl]
      exact ih s

theorem expectChars_one (c : Char) (s : List Char) :
    expectChars [c] (c :: s) = Except.ok s :=
  expectChars_append [c] s

/-! ## Codec lemmas: numbers and strings -/

theorem parseNatDigits_enc (n : Nat) (rest : List Char)
    (hrest : headNotDigit rest) :
    parseNatDigits (natDigits n ++ rest) = Except.ok (n, rest) := by
  have hspan : spanDigits (natDigits n ++ rest) = (natDigits n, rest) :=
    spanDigits_append (natDigits n) rest (natDigits_all_digit n) hrest
  rcases hnd : natDigits n with _ | ⟨c, cs⟩
  · exact absurd hnd (natDigits_ne_nil n)
  · rw [hnd] at hspan
    have hcond : ¬ (c = '0' ∧ cs ≠ []) := by
      rcases Nat.eq_zero_or_pos n with hz | hp
      · subst hz
        have h0 : natDigits 0 = ['0'] := by rw [natDigits]; rfl
        rw [h0] at hnd
        simp only [List.cons.injEq] at hnd
        rintro ⟨_, hcs⟩
        exact hcs hnd.2.symm
      · rintro ⟨hc, _⟩
        exact natDigits_head_ne_zero n hp c cs hnd hc
    unfold parseNatDigits
    rw [hspan]
    simp only []
    rw [if_neg hcond, ← hnd, digitsVal_natDigits]

theorem parseJsonInt_cons (c : Char) (rest : List Char) :
    parseJsonInt (c :: rest) =
      if c = '-' then
        pbind (parseNatDigits rest) fun p => Except.ok (-(p.1 : Int), p.2)
      else
        pbind (parseNatDigits (c :: rest)) fun p => Except.ok ((p.1 : Int), p.2) :=
  rfl

theorem parseJsonInt_enc (v : Int) (rest : List Char)
    (hrest : headNotDigit rest) :
    parseJsonInt (intToChars v ++ rest) = Except.ok (v, rest) := by
  by_cases hv : v < 0
  · rw [intToChars, if_pos hv]
    rw [List.cons_append, parseJsonInt_cons, if_pos rfl,
      parseNatDigits_enc v.natAbs rest hrest]
    simp only [pbind_ok]
    have hval : -((v.natAbs : Nat) : Int) = v := by omega
    rw [hval]
  · rw [intToChars, if_neg hv]
    rcases hnd : natDigits v.toNat with _ | ⟨c, cs⟩
    · exact absurd hnd (natDigits_ne_nil v.toNat)
    · have hc : c.isDigit = true := by
        apply natDigits_all_digit v.toNat
        rw [hnd]; exact List.mem_cons_self c cs
      rw [List.cons_append, parseJsonInt_cons, if_neg (digit_ne_minus c hc),
        ← List.cons_append, ← hnd, parseNatDigits_enc v.toNat rest hrest]
      simp only [pbind_ok]
      have hval : ((v.toNat : Nat) : Int) = v := by omega
      rw [hval]

theorem intToChars_cons (v : Int) :
    ∃ c cs, intToChars v = c :: cs ∧ isWsChar c = false := by
  by_cases hv : v < 0
  · exact ⟨'-', natDigits v.natAbs, by rw [intToChars, if_pos hv], by decide⟩
  · rcases hnd : natDigits v.toNat with _ | ⟨c, cs⟩
    · exact absurd hnd (natDigits_ne_nil v.toNat)
    · refine ⟨c, cs, by rw [intToChars, if_neg hv, hnd], ?_⟩
      apply digit_not_ws
      apply natDigits_all_digit v.toNat
      rw [hnd]; exact List.mem_cons_self c cs

theorem skipWs_intToChars (v : Int) (rest : List Char) :
    skipWs (intToChars v ++ rest) = intToChars v ++ rest := by
  rcases intToChars_cons v with ⟨c, cs, heq, hws⟩
  rw [heq, List.cons_append, skipWs_not c hws]

theorem encodeChar_plain (c : Char) (h : plainChar c) : encodeChar c = [c] := by
  unfold encodeChar
  rw [if_pos h]

theorem parseStringBody_enc (b : List Char) : ∀ rest : List Char,
    (∀ c ∈ b, plainChar c) →
    parseStringBody (encodeStringBody b ++ '"' :: rest) = Except.ok (b, rest) := by
  induction b with
  | nil =>
      intro rest _
      show parseStringBody ('"' :: rest) = Except.ok ([], rest)
      rw [parseStringBody.eq_def]
      simp
  | cons c cs ih =>
      intro rest hb
      have hc : plainChar c := hb c (List.mem_cons_self c cs)
      have h32 : 32 ≤ c.toNat := hc.2.2.2.2.2.1
      rw [show encodeStringBody (c :: cs) = encodeChar c ++ encodeStringBody cs
          from rfl, encodeChar_plain c hc]
      simp only [List.cons_append, List.nil_append]
      rw [parseStringBody.eq_def]
      simp only []
      rw [if_neg hc.1, if_neg hc.2.1, if_neg (by omega : ¬ c.toNat < 32),
        ih rest (fun x hx => hb x (List.mem_cons_of_mem c hx))]
      rfl

/-! ## Codec lemmas: fields and records -/

theorem headNotDigit_cons (c : Char) (h : c.isDigit = false) (z : List Char) :
    headNotDigit (c :: z) := h

theorem fieldSeg_append (key a rest : List Char) :
    fieldSeg key a ++ rest = fieldSeg key (a ++ rest) := by
  simp [fieldSeg]

theorem fieldSegStr_append (key a rest : List Char) :
    fieldSegStr key a ++ rest = fieldSegStr key (a ++ rest) := by
  simp [fieldSegStr]

theorem parseIntField_enc (key : List Char) (v : Int) (tail : List Char)
    (htail : headNotDigit tail) :
    parseIntField key (fieldSeg key (intToChars v ++ tail)) = Except.ok (v, tail) := by
  unfold parseIntField fieldSeg
  rw [skipWs_ws '\n' (by decide), skipWs_ws ' ' (by decide),
    skipWs_ws ' ' (by decide), skipWs_ws ' ' (by decide), skipWs_ws ' ' (by decide),
    skipWs_not '"' (by decide)]
  rw [show ('"' :: (key ++ '"' :: ':' :: ' ' :: (intToChars v ++ tail))) =
      ('"' :: key ++ ['"']) ++ (':' :: ' ' :: (intToChars v ++ tail)) from by simp]
  rw [expectChars_append]
  simp only [pbind_ok]
  rw [skipWs_not ':' (by decide), expectChars_one]
  simp only [pbind_ok]
  rw [skipWs_ws ' ' (by decide), skipWs_intToChars]
  exact parseJsonInt_enc v tail htail

theorem parseQuoted_cons (rest : List Char) :
    parseQuoted ('"' :: rest) =
      pbind (parseStringBody rest) fun p => Except.ok (String.mk p.1, p.2) := rfl

theorem parseStrField_enc (key : List Char) (ev : String) (tail : List Char)
    (hplain : ∀ c ∈ ev.data, plainChar c) :
    parseStrField key
      (fieldSegStr key (encodeStringBody ev.data ++ '"' :: tail)) =
      Except.ok (ev, tail) := by
  unfold parseStrField fieldSegStr
  rw [skipWs_ws '\n' (by decide), skipWs_ws ' ' (by decide),
    skipWs_ws ' ' (by decide), skipWs_ws ' ' (by decide), skipWs_ws ' ' (by decide),
    skipWs_not '"' (by decide)]
  rw [show ('"' :: (key ++ '"' :: ':' :: ' ' :: '"' :: (encodeStringBody ev.data ++ '"' :: tail))) =
      ('"' :: key ++ ['"']) ++ (':' :: ' ' :: '"' :: (encodeStringBody ev.data ++ '"' :: tail))
      from by simp]
  rw [expectChars_append]
  simp only [pbind_ok]
  rw [skipWs_not ':' (by decide), expectChars_one]
  simp only [pbind_ok]
  rw [skipWs_ws ' ' (by decide), skipWs_not '"' (by decide)]
  rw [parseQuoted_cons, parseStringBody_enc ev.data tail hplain]
  rfl

theorem expectComma_cons (rest : List Char) :
    expectComma (',' :: rest) = Except.ok rest := by
  unfold expectComma
  rw [skipWs_not ',' (by decide), expectChars_one]

theorem parseRecord_enc (r : MouseRecord) (hOK : recordOK r) (rest : List Char) :
    parseRecord (encodeRecord r ++ rest) = Except.ok (r, rest) := by
  have hform : recBody r ++ rest =
      fieldSeg keyDeltaMS (intToChars r.DeltaMS ++
        ',' :: fieldSeg keyX (intToChars r.X ++
          ',' :: fieldSeg keyY (intToChars r.Y ++
            ',' :: fieldSegStr keyEvent (encodeStringBody r.Event.data ++
              '"' :: ',' :: fieldSeg keyData (intToChars r.Data ++
                '\n' :: ' ' :: ' ' :: '\x7d' :: rest))))) := by
    simp [recBody, fieldSeg, fieldSegStr]
  unfold parseRecord
  rw [show encodeRecord r ++ rest = ' ' :: ' ' :: '\x7b' :: (recBody r ++ rest)
      from by simp [encodeRecord]]
  rw [skipWs_ws ' ' (by decide), skipWs_ws ' ' (by decide),
    skipWs_not '\x7b' (by decide), expectChars_one]
  simp only [pbind_ok]
  rw [hform]
  rw [parseIntField_enc keyDeltaMS r.DeltaMS _ (headNotDigit_cons ',' (by decide) _)]
  simp only [pbind_ok]
  rw [expectComma_cons]
  simp only [pbind_ok]
  rw [parseIntField_enc keyX r.X _ (headNotDigit_cons ',' (by decide) _)]
  simp only [pbind_ok]
  rw [expectComma_cons]
  simp only [pbind_ok]
  rw [parseIntField_enc keyY r.Y _ (headNotDigit_cons ',' (by decide) _)]
  simp only [pbind_ok]
  rw [expectComma_cons]
  simp only [pbind_ok]
  rw [parseStrField_enc keyEvent r.Event _
    (fun c hc => hOK.2.2.2.2 c hc)]
  simp only [pbind_ok]
  rw [expectComma_cons]
  simp only [pbind_ok]
  rw [parseIntField_enc keyData r.Data _ (headNotDigit_cons '\n' (by decide) _)]
  simp only [pbind_ok]
  rw [skipWs_ws '\n' (by decide), skipWs_ws ' ' (by decide),
    skipWs_ws ' ' (by decide), skipWs_not '\x7d' (by decide), expectChars_one]
  simp only [pbind_ok]
  rw [if_pos ⟨hOK.1, hOK.2.1, hOK.2.2.1, hOK.2.2.2.1⟩]

theorem parseRecord_skipWs (s : List Char) :
    parseRecord (skipWs s) = parseRecord s := by
  unfold parseRecord
  rw [skipWs_idem]

/-! ## Codec lemmas: the array loop and the top level -/

theorem parseItems_succ (fuel : Nat) (s : List Char) :
    parseItems (fuel + 1) s =
      pbind (parseRecord s) fun pr =>
        parseItemsAfter (parseItems fuel) pr.1 (skipWs pr.2) := rfl

theorem parseItemsAfter_cons
    (next : List Char → Except String (List MouseRecord × List Char))
    (r : MouseRecord) (c : Char) (rest : List Char) :
    parseItemsAfter next r (c :: rest) =
      if c = ',' then
        pbind (next rest) fun pp => Except.ok (r :: pp.1, pp.2)
      else if c = ']' then Except.ok ([r], rest)
      else Except.error "invalid character in array" := rfl

theorem parseItems_skipWs (fuel : Nat) (s : List Char) :
    parseItems fuel (skipWs s) = parseItems fuel s := by
  cases fuel with
  | zero => rfl
  | succ k => simp only [parseItems_succ, parseRecord_skipWs]

theorem encSeq_cons (r : MouseRecord) (rs : List MouseRecord) :
    encSeq (r :: rs) = encodeRecord r ++ encSepTail rs := by
  cases rs with
  | nil => simp [encSeq, encSepTail]
  | cons r2 rs2 => rfl

theorem parseItems_enc (rs : List MouseRecord) :
    ∀ (r : MouseRecord) (fuel : Nat) (trailing : List Char),
      (∀ q ∈ r :: rs, recordOK q) → rs.length + 1 ≤ fuel →
      parseItems fuel (encSeq (r :: rs) ++ '\n' :: ']' :: trailing) =
        Except.ok (r :: rs, trailing) := by
  induction rs with
  | nil =>
      intro r fuel trailing hOK hfuel
      cases fuel with
      | zero => omega
      | succ k =>
          rw [show encSeq [r] = encodeRecord r from rfl, parseItems_succ,
            parseRecord_enc r (hOK r (by simp)) ('\n' :: ']' :: trailing)]
          simp only [pbind_ok]
          rw [skipWs_ws '\n' (by decide), skipWs_not ']' (by decide),
            parseItemsAfter_cons, if_neg (by decide), if_pos rfl]
  | cons r2 rs2 ih =>
      intro r fuel trailing hOK hfuel
      cases fuel with
      | zero => simp at hfuel
      | succ k =>
          rw [show encSeq (r :: r2 :: rs2) =
              encodeRecord r ++ ',' :: '\n' :: encSeq (r2 :: rs2) from rfl]
          rw [show (encodeRecord r ++ ',' :: '\n' :: encSeq (r2 :: rs2)) ++
              '\n' :: ']' :: trailing =
              encodeRecord r ++
                ',' :: '\n' :: (encSeq (r2 :: rs2) ++ '\n' :: ']' :: trailing)
              from by simp]
          rw [parseItems_succ,
            parseRecord_enc r (hOK r (by simp))
              (',' :: '\n' :: (encSeq (r2 :: rs2) ++ '\n' :: ']' :: trailing))]
          simp only [pbind_ok]
          rw [skipWs_not ',' (by decide), parseItemsAfter_cons, if_pos rfl]
          have hskip : parseItems k
              ('\n' :: (encSeq (r2 :: rs2) ++ '\n' :: ']' :: trailing)) =
              parseItems k (encSeq (r2 :: rs2) ++ '\n' :: ']' :: trailing) := by
            rw [← parseItems_skipWs k
              ('\n' :: (encSeq (r2 :: rs2) ++ '\n' :: ']' :: trailing)),
              skipWs_ws '\n' (by decide), parseItems_skipWs]
          rw [hskip, ih r2 k trailing
            (fun q hq => hOK q (List.mem_cons_of_mem r hq))
            (by simp at hfuel ⊢; omega)]
          simp only [pbind_ok]

theorem encSeq_length_ge (rs : List MouseRecord) :
    ∀ r : MouseRecord, rs.length + 1 ≤ (encSeq (r :: rs)).length := by
  induction rs with
  | nil =>
      intro r
      simp [encSeq, encodeRecord]
  | cons r2 rs2 ih =>
      intro r
      rw [show encSeq (r :: r2 :: rs2) =
          encodeRecord r ++ ',' :: '\n' :: encSeq (r2 :: rs2) from rfl]
      have h2 := ih r2
      simp only [List.length_append, List.length_cons]
      omega

theorem decodeTop_cons (origLen : Nat) (c : Char) (rest : List Char) :
    decodeTop origLen (c :: rest) =
      if c = '[' then decodeAfterBracket origLen (skipWs rest)
      else if c = 'n' then
        pbind (expectChars ['u', 'l', 'l'] rest) fun tail =>
          if wsOnly tail then Except.ok []
          else Except.error "invalid character after top-level value"
      else Except.error "looking for beginning of value" := rfl

theorem decodeAfterBracket_cons (origLen : Nat) (d : Char) (urest : List Char) :
    decodeAfterBracket origLen (d :: urest) =
      if d = ']' then
        if wsOnly urest then Except.ok []
        else Except.error "invalid character after top-level value"
      else
        pbind (parseItems (origLen + 1) (d :: urest)) fun pp =>
          if wsOnly pp.2 then Except.ok pp.1
          else Except.error "invalid character after top-level value" := rfl

/-! ## Claim theorems (codec) -/

/-- C1: decoding the encoding of any record sequence gives back the same
sequence field for field; the hypotheses say the records are representable
by the Go struct (int64/int32 fields, Event characters that Marshal writes
verbatim), which holds of every record the program builds. -/
theorem c1_roundtrip (rs : List MouseRecord) (h : ∀ r ∈ rs, recordOK r) :
    decodeRecords (encodeRecords rs) = Except.ok rs := by
  cases rs with
  | nil => rfl
  | cons r rs2 =>
      have hE : encodeChars (r :: rs2) =
          '[' :: '\n' :: (encSeq (r :: rs2) ++ '\n' :: ']' :: []) := by
        simp [encodeChars]
      rw [show decodeRecords (encodeRecords (r :: rs2)) =
          decodeTop (encodeChars (r :: rs2)).length
            (skipWs (encodeChars (r :: rs2))) from rfl, hE]
      rw [skipWs_not '[' (by decide), decodeTop_cons, if_pos rfl,
        skipWs_ws '\n' (by decide)]
      have hU : skipWs (encSeq (r :: rs2) ++ '\n' :: ']' :: []) =
          '\x7b' :: (recBody r ++ (encSepTail rs2 ++ '\n' :: ']' :: [])) := by
        rw [encSeq_cons,
          show encodeRecord r ++ encSepTail rs2 ++ '\n' :: ']' :: [] =
            ' ' :: ' ' :: '\x7b' ::
              (recBody r ++ (encSepTail rs2 ++ '\n' :: ']' :: []))
            from by simp [encodeRecord]]
        rw [skipWs_ws ' ' (by decide), skipWs_ws ' ' (by decide),
          skipWs_not '\x7b' (by decide)]
      rw [hU, decodeAfterBracket_cons, if_neg (by decide), ← hU,
        parseItems_skipWs]
      rw [parseItems_enc rs2 r _ [] h ?_]
      · rfl
      · have hlen := encSeq_length_ge rs2 r
        simp only [List.length_cons, List.length_append]
        omega

/-- C9: when Decode rejects the persisted bytes, replay surfaces exactly
that error and produces no synthetic input at all — no cursor move, no
injection, no sleep; the error value carries no records. -/
theorem c9_decode_abort (text : String) (e : String)
    (hdec : decodeRecords text = Except.error e) :
    ∀ fails : Nat → Bool,
      replayFromFile fails (some text) = (Except.error e, []) ∧
      replayFromFile fails none = (Except.error "read failure", []) := by
  intro fails
  constructor
  · simp [replayFromFile, hdec]
  · rfl

/-- Witness for c9_decode_abort on a truncated log. -/
theorem c9_decode_abort_witness :
    decodeRecords "[" = Except.error "unexpected end of JSON input" ∧
    replayFromFile (fun _ => false) (some "[") =
      (Except.error "unexpected end of JSON input", []) :=
  ⟨rfl, (c9_decode_abort "[" "unexpected end of JSON input" rfl (fun _ => false)).1⟩

/-- Witness for c1_roundtrip at a sequence with a zero delta and a
negative Data payload. -/
theorem c1_roundtrip_witness :
    (∀ r ∈ [({ DeltaMS := 0, X := -4, Y := 5, Event := "MouseWheel",
               Data := -120 } : MouseRecord),
             { DeltaMS := 42, X := 100, Y := 200, Event := "", Data := 0 }],
        recordOK r) ∧
    decodeRecords (encodeRecords
      [{ DeltaMS := 0, X := -4, Y := 5, Event := "MouseWheel", Data := -120 },
       { DeltaMS := 42, X := 100, Y := 200, Event := "", Data := 0 }]) =
      Except.ok
      [{ DeltaMS := 0, X := -4, Y := 5, Event := "MouseWheel", Data := -120 },
       { DeltaMS := 42, X := 100, Y := 200, Event := "", Data := 0 }] :=
  ⟨by decide,
   c1_roundtrip
     [{ DeltaMS := 0, X := -4, Y := 5, Event := "MouseWheel", Data := -120 },
      { DeltaMS := 42, X := 100, Y := 200, Event := "", Data := 0 }]
     (by decide)⟩

end MRR